import Mathlib

/-!
Shallow embedding of the Monte Carlo race core of the giraffe-race bot
(`monte-carlo` module: FastRng, splitmix32, score clamping and bias,
`simulateFullRace`, `calculateFinishOrder`, `accumulateStats`,
`calculateProbabilities`).

Machine integers are modelled as `Nat` with explicit `% 2^32` where the
JavaScript source forces 32-bit wraparound (`>>> 0`, `Math.imul`, `<<`,
`>>>`).  Credit accumulators, which the source keeps in JavaScript floats,
are modelled in exact rational arithmetic (`ℚ`).  `Date.now()` readings are
passed in as explicit integer parameters.
-/

namespace GiraffeRace

/-- 2^32, the wraparound modulus of JavaScript 32-bit integer operations. -/
def U32 : Nat := 4294967296

def LANE_COUNT : Nat := 6
def SPEED_RANGE : Nat := 10
def TRACK_LENGTH : Nat := 1000
def FINISH_OVERSHOOT : Nat := 10
def MAX_TICKS : Nat := 500
def FINISH_TIME_PRECISION : Nat := 10000

/-- `Math.imul(a, b) >>> 0`: 32-bit multiplication. -/
def imul32 (a b : Nat) : Nat := (a * b) % U32

/-- State of the xorshift128 generator `FastRng`: four 32-bit words. -/
structure FastRng where
  s0 : Nat
  s1 : Nat
  s2 : Nat
  s3 : Nat
deriving DecidableEq

/-- One advance of the xorshift128 recurrence (`FastRng.next`); the value
returned by the source method is the new `s0`. -/
def FastRng.next (g : FastRng) : FastRng :=
  let t := g.s3
  let s := g.s0
  let t1 := t ^^^ ((t * 2048) % U32)
  let t2 := t1 ^^^ (t1 / 256)
  ⟨(t2 ^^^ s) ^^^ (s / 524288), s, g.s1, g.s2⟩

/-- `FastRng` constructor: three independent multiplicative mixes with zero
fallbacks (`|| constant`), then 20 warm-up advances. -/
def FastRng.init (seed : Nat) : FastRng :=
  let v0 := seed % U32
  let v1 := imul32 seed 0x85ebca6b
  let v2 := imul32 seed 0xc2b2ae35
  let v3 := imul32 seed 0x27d4eb2f
  let g : FastRng :=
    ⟨if v0 = 0 then 0x12345678 else v0,
     if v1 = 0 then 0x9abcdef0 else v1,
     if v2 = 0 then 0xdeadbeef else v2,
     if v3 = 0 then 0xcafebabe else v3⟩
  FastRng.next^[20] g

/-- `FastRng.roll(n)`: returns `0` without advancing when `n ≤ 1`, otherwise
advances once and reduces the drawn value modulo `n`. -/
def FastRng.roll (g : FastRng) (n : Nat) : Nat × FastRng :=
  if n ≤ 1 then (0, g)
  else
    let g1 := g.next
    (g1.s0 % n, g1)

/-- `splitmix32Next`: advances the 32-bit seed-sequencer accumulator by the
golden-ratio constant and produces an avalanche-mixed output.  Returns
`(updated accumulator, output)`. -/
def splitmix32Next (x : Nat) : Nat × Nat :=
  let x1 := (x + 0x9e3779b9) % U32
  let z0 := x1
  let z1 := imul32 (z0 ^^^ (z0 / 65536)) 0x85ebca6b
  let z2 := imul32 (z1 ^^^ (z1 / 8192)) 0xc2b2ae35
  (x1, z2 ^^^ (z2 / 65536))

/-- `clampScore`: clamps an integer score into `[1, 10]` (below 1 becomes 1,
above 10 becomes 10). -/
def clampScore (r : Int) : Int :=
  if r < 1 then 1
  else if r > 10 then 10
  else r

/-- `scoreBps`: speed bias in basis points,
`minBps + floor((score-1) * (10000-minBps) / 9)` on the clamped score. -/
def scoreBps (score : Int) : Nat :=
  let r := clampScore score
  let minBps := 9585
  let range := 10000 - minBps
  minBps + ((r - 1).toNat * range) / 9

/-- Mutable state of one race simulation: the generator, the six distances
and the six precise finish times (`-1` = has not crossed the line). -/
structure RaceState where
  rng : FastRng
  distances : Fin 6 → Nat
  finishTimes : Fin 6 → Int

/-- Body of the inner per-lane loop of `simulateFullRace` at tick `t`:
draw a base step in `[1,10]`, apply the basis-point bias with probabilistic
rounding (the second draw happens only when the remainder is positive),
move by at least one unit, and record the interpolated finish time when the
lane first crosses `TRACK_LENGTH`. -/
def laneStep (bps : Fin 6 → Nat) (t : Nat) (st : RaceState) (a : Fin 6) : RaceState :=
  let rolled := st.rng.roll SPEED_RANGE
  let r := rolled.1
  let baseSpeed := r + 1
  let raw := baseSpeed * bps a
  let q := raw / 10000
  let rem := raw % 10000
  let picked :=
    if 0 < rem then
      let pr := rolled.2.roll 10000
      (if pr.1 < rem then q + 1 else q, pr.2)
    else (q, rolled.2)
  let speed := if 0 < picked.1 then picked.1 else 1
  let prevDist := st.distances a
  let newDist := prevDist + speed
  let newTime : Int :=
    if st.finishTimes a = -1 ∧ prevDist < TRACK_LENGTH ∧ TRACK_LENGTH ≤ newDist then
      ((t * FINISH_TIME_PRECISION +
        ((TRACK_LENGTH - prevDist) * FINISH_TIME_PRECISION) / speed : Nat) : Int)
    else st.finishTimes a
  ⟨picked.2, Function.update st.distances a newDist, Function.update st.finishTimes a newTime⟩

/-- One tick: every lane moves once, in lane order 0..5, sharing the
generator sequentially. -/
def tick (bps : Fin 6 → Nat) (t : Nat) (st : RaceState) : RaceState :=
  (List.finRange 6).foldl (laneStep bps t) st

/-- The early-exit test of the tick loop: every lane is past
`TRACK_LENGTH + FINISH_OVERSHOOT`. -/
def allFinished (st : RaceState) : Bool :=
  (List.finRange 6).all (fun a => TRACK_LENGTH + FINISH_OVERSHOOT ≤ st.distances a)

/-- The tick loop of `simulateFullRace`: up to `fuel` more ticks starting at
tick index `t`, stopping early when all lanes are finished. -/
def raceLoop (bps : Fin 6 → Nat) : Nat → Nat → RaceState → RaceState
  | _, 0, st => st
  | t, fuel + 1, st =>
    if allFinished st then st else raceLoop bps (t + 1) fuel (tick bps t st)

/-- A row of the array sorted by `calculateFinishOrder`. -/
structure SortEntry where
  lane : Fin 6
  time : Int
  distance : Int
deriving DecidableEq

/-- The sort comparator of `calculateFinishOrder`: finish time ascending,
ties broken by distance descending (true also on full ties, giving the
stable-sort order of the source). -/
def entryLE (x y : SortEntry) : Prop :=
  x.time < y.time ∨ (x.time = y.time ∧ y.distance ≤ x.distance)

instance : DecidableRel entryLE := fun x y => by
  unfold entryLE; infer_instance

/-- One first/second/third band: the tied lanes and their number. -/
structure Band where
  lanes : List (Fin 6)
  count : Nat
deriving DecidableEq

def emptyBand : Band := ⟨[], 0⟩

/-- Result of the finish-order resolver. -/
structure FinishOrder where
  first : Band
  second : Band
  third : Band
deriving DecidableEq

/-- One step of run-grouping: prepend entry `e` to a grouped tail, merging
it into the first run when the finish time matches. -/
def groupCons (e : SortEntry) : List (Int × List (Fin 6)) → List (Int × List (Fin 6))
  | [] => [(e.time, [e.lane])]
  | (t, ls) :: gs =>
    if e.time = t then (t, e.lane :: ls) :: gs
    else (e.time, [e.lane]) :: (t, ls) :: gs

/-- Grouping of the sorted rows into maximal runs of equal finish time,
keeping the lanes of each run in sorted order (the source builds the same runs
left to right with a current-group accumulator). -/
def groupRuns : List SortEntry → List (Int × List (Fin 6))
  | [] => []
  | e :: rest => groupCons e (groupRuns rest)

/-- The position-assignment loop of `calculateFinishOrder`: walk the groups
with a running position; a group arriving at position 0/1/2 becomes the
first/second/third band, and the walk stops at position ≥ 3. -/
def assignGo : Nat → FinishOrder → List (Int × List (Fin 6)) → FinishOrder
  | _, fo, [] => fo
  | position, fo, g :: rest =>
    if position = 0 then
      assignGo (position + g.2.length) { fo with first := ⟨g.2, g.2.length⟩ } rest
    else if position = 1 then
      assignGo (position + g.2.length) { fo with second := ⟨g.2, g.2.length⟩ } rest
    else if position = 2 then
      assignGo (position + g.2.length) { fo with third := ⟨g.2, g.2.length⟩ } rest
    else fo

/-- `calculateFinishOrder`: sort the six lanes by the comparator, group the
dead heats, and assign the first/second/third bands. -/
def calculateFinishOrder (finishTimes : Fin 6 → Int) (distances : Fin 6 → Int) :
    FinishOrder :=
  let entries :=
    (List.finRange 6).map (fun lane => SortEntry.mk lane (finishTimes lane) (distances lane))
  let sorted := List.insertionSort entryLE entries
  assignGo 0 ⟨emptyBand, emptyBand, emptyBand⟩ (groupRuns sorted)

/-- Result record of `simulateFullRace`. -/
structure SimResult where
  finishOrder : FinishOrder
  finalDistances : Fin 6 → Nat
  finishTimes : Fin 6 → Int

/-- `simulateFullRace`: seed the generator, derive the six biases, run the
tick loop from all-zero distances and all-unfinished times, and resolve the
finish order. -/
def simulateFullRace (seed : Nat) (scores : Fin 6 → Int) : SimResult :=
  let bps := fun a => scoreBps (scores a)
  let st0 : RaceState := ⟨FastRng.init seed, fun _ => 0, fun _ => -1⟩
  let st := raceLoop bps 0 MAX_TICKS st0
  let finishOrder := calculateFinishOrder st.finishTimes (fun a => (st.distances a : Int))
  ⟨finishOrder, st.distances, st.finishTimes⟩

/-- The three per-lane credit accumulators (`winCredits`, `placeCredits`,
`showCredits`), each a map from lane to exact rational credit. -/
structure LaneStatsMap where
  winCredits : Fin 6 → ℚ
  placeCredits : Fin 6 → ℚ
  showCredits : Fin 6 → ℚ

/-- The credit update `stats[lane] += share` applied over the lanes list of a band. -/
def bumpAll (share : ℚ) (lanes : List (Fin 6)) (f : Fin 6 → ℚ) : Fin 6 → ℚ :=
  lanes.foldl (fun g lane => Function.update g lane (g lane + share)) f

/-- WIN section of `accumulateStats`: each lane tied for first receives
`1 / first.count`. -/
def accWin (first : Band) (w : Fin 6 → ℚ) : Fin 6 → ℚ :=
  let winShare : ℚ := 1 / (first.count : ℚ)
  bumpAll winShare first.lanes w

/-- PLACE section of `accumulateStats` (2 spots): full credit to the first
band when it fits, else an even split of both spots; remaining spots cascade
to the second band, splitting when it overflows them. -/
def accPlace (first second : Band) (p : Fin 6 → ℚ) : Fin 6 → ℚ :=
  let placeSpots : Nat := 2
  let step1 :=
    if first.count ≤ placeSpots then
      (bumpAll 1 first.lanes p, first.count)
    else
      (bumpAll ((placeSpots : ℚ) / (first.count : ℚ)) first.lanes p, placeSpots)
  let placeUsed := step1.2
  let placeRemaining := placeSpots - placeUsed
  if 0 < placeRemaining ∧ 0 < second.count then
    if second.count ≤ placeRemaining then bumpAll 1 second.lanes step1.1
    else bumpAll ((placeRemaining : ℚ) / (second.count : ℚ)) second.lanes step1.1
  else step1.1

/-- SHOW section of `accumulateStats` (3 spots): the same cascading logic
through the first, second and third bands. -/
def accShow (first second third : Band) (s : Fin 6 → ℚ) : Fin 6 → ℚ :=
  let showSpots : Nat := 3
  let step1 :=
    if first.count ≤ showSpots then
      (bumpAll 1 first.lanes s, first.count)
    else
      (bumpAll ((showSpots : ℚ) / (first.count : ℚ)) first.lanes s, showSpots)
  let rem1 := showSpots - step1.2
  let step2 :=
    if 0 < rem1 ∧ 0 < second.count then
      if second.count ≤ rem1 then
        (bumpAll 1 second.lanes step1.1, step1.2 + second.count)
      else
        (bumpAll ((rem1 : ℚ) / (second.count : ℚ)) second.lanes step1.1, showSpots)
    else step1
  let rem2 := showSpots - step2.2
  if 0 < rem2 ∧ 0 < third.count then
    if third.count ≤ rem2 then bumpAll 1 third.lanes step2.1
    else bumpAll ((rem2 : ℚ) / (third.count : ℚ)) third.lanes step2.1
  else step2.1

/-- `accumulateStats`: apply the standard dead-heat splitting rules for one
finish order to the running tallies. -/
def accumulateStats (stats : LaneStatsMap) (finishOrder : FinishOrder) : LaneStatsMap :=
  ⟨accWin finishOrder.first stats.winCredits,
   accPlace finishOrder.first finishOrder.second stats.placeCredits,
   accShow finishOrder.first finishOrder.second finishOrder.third stats.showCredits⟩

/-- `Math.round` of JavaScript on a nonnegative rational: half rounds up. -/
def jsRound (q : ℚ) : Int := ⌊q + 1 / 2⌋

/-- `fmtBps`: probability to basis points, `Math.round(p * 10000)`. -/
def fmtBps (p : ℚ) : Int := jsRound (p * 10000)

/-- The score pre-mixing loop of `calculateProbabilities`: xor each clamped
score (multiplied by `0x85ebca6b`, 32-bit) into the accumulator and advance
the sequencer once, discarding the output. -/
def mixScores (clamped : List Int) (x : Nat) : Nat :=
  clamped.foldl (fun x s => (splitmix32Next (x ^^^ ((s.toNat * 0x85ebca6b) % U32))).1) x

/-- The simulation loop of `calculateProbabilities`: `n` iterations, each
deriving a fresh seed from the sequencer, simulating a full race and
accumulating the finish order. -/
def runSims (scores : Fin 6 → Int) : Nat → Nat → LaneStatsMap → LaneStatsMap
  | 0, _, stats => stats
  | n + 1, x, stats =>
    let drawn := splitmix32Next x
    let sim := simulateFullRace drawn.2 scores
    runSims scores n drawn.1 (accumulateStats stats sim.finishOrder)

/-- Aggregate result of `calculateProbabilities` (the per-lane `lanes` array
of the source repeats the same numbers and is omitted). -/
structure AggregateResult where
  scores : List Int
  samples : Int
  elapsedMs : Int
  winProbBps : List Int
  placeProbBps : List Int
  showProbBps : List Int
deriving DecidableEq

/-- `calculateProbabilities(scores, samples, salt)`: validate, clamp, seed
the sequencer from the salt and the clamped scores, run the simulations and
convert the credit tallies into basis-point arrays.  The two `Date.now()`
readings of the source are the explicit `now0`/`now1` parameters and feed
only `elapsedMs`. -/
def calculateProbabilities (scores : List Int) (samples : Int) (salt : Nat)
    (now0 now1 : Int) : Except String AggregateResult :=
  if scores.length ≠ LANE_COUNT then .error "Expected 6 scores"
  else if samples ≤ 0 then .error "samples must be > 0"
  else
    let clampedScores := scores.map clampScore
    let stats0 : LaneStatsMap := ⟨fun _ => 0, fun _ => 0, fun _ => 0⟩
    let x0 := if (salt * 0x9e3779b9) % U32 = 0 then 0x12345678 else (salt * 0x9e3779b9) % U32
    let x1 := mixScores clampedScores x0
    let scoresFn : Fin 6 → Int := fun a => clampedScores.getD a 1
    let stats := runSims scoresFn samples.toNat x1 stats0
    let winProbBps := (List.finRange 6).map (fun a => fmtBps (stats.winCredits a / (samples : ℚ)))
    let placeProbBps := (List.finRange 6).map (fun a => fmtBps (stats.placeCredits a / (samples : ℚ)))
    let showProbBps := (List.finRange 6).map (fun a => fmtBps (stats.showCredits a / (samples : ℚ)))
    .ok ⟨clampedScores, samples, now1 - now0, winProbBps, placeProbBps, showProbBps⟩

/-! ### Lemmas about the credit-bumping fold -/

theorem bumpAll_apply (share : ℚ) (lanes : List (Fin 6)) (f : Fin 6 → ℚ) (a : Fin 6) :
    bumpAll share lanes f a = f a + (lanes.count a : ℚ) * share := by
  induction lanes generalizing f with
  | nil => simp [bumpAll]
  | cons b bs ih =>
    simp only [bumpAll, List.foldl_cons] at ih ⊢
    rw [ih]
    rcases eq_or_ne a b with h | h
    · subst h
      simp [Function.update_apply, List.count_cons]
      ring
    · simp [Function.update_apply, h, List.count_cons, Ne.symm h]

theorem sum_count_univ (lanes : List (Fin 6)) :
    (∑ a : Fin 6, (lanes.count a : ℚ)) = (lanes.length : ℚ) := by
  induction lanes with
  | nil => simp
  | cons b bs ih =>
    simp only [List.count_cons, List.length_cons]
    push_cast
    rw [Finset.sum_add_distrib, ih]
    simp [Finset.sum_ite_eq]

theorem bumpAll_sum (share : ℚ) (lanes : List (Fin 6)) (f : Fin 6 → ℚ) :
    (∑ a : Fin 6, bumpAll share lanes f a) =
      (∑ a : Fin 6, f a) + (lanes.length : ℚ) * share := by
  simp only [bumpAll_apply]
  rw [Finset.sum_add_distrib, ← Finset.sum_mul, sum_count_univ]

/-! ### Lemmas about the dead-heat grouping -/

theorem groupRuns_flatten (l : List SortEntry) :
    ((groupRuns l).map Prod.snd).flatten = l.map SortEntry.lane := by
  induction l with
  | nil => simp [groupRuns]
  | cons e rest ih =>
    simp only [groupRuns]
    cases hgr : groupRuns rest with
    | nil =>
      rw [hgr] at ih
      simp at ih
      simp [groupCons, ← ih]
    | cons p gs =>
      obtain ⟨t, ls⟩ := p
      rw [hgr] at ih
      by_cases h : e.time = t
      · simp only [groupCons, h, if_pos rfl]
        simp only [List.map_cons, List.flatten_cons] at ih ⊢
        simp [← ih]
      · simp only [groupCons, if_neg h]
        simp only [List.map_cons, List.flatten_cons] at ih ⊢
        simp [← ih]

theorem groupRuns_ne_nil (l : List SortEntry) :
    ∀ p ∈ groupRuns l, p.2 ≠ [] := by
  induction l with
  | nil => simp [groupRuns]
  | cons e rest ih =>
    intro p hp
    simp only [groupRuns] at hp
    cases hgr : groupRuns rest with
    | nil =>
      rw [hgr] at hp
      simp [groupCons] at hp
      simp [hp]
    | cons q gs =>
      obtain ⟨t, ls⟩ := q
      rw [hgr] at hp
      simp only [groupCons] at hp
      by_cases h : e.time = t
      · rw [if_pos h] at hp
        rcases List.mem_cons.mp hp with h1 | h1
        · simp [h1]
        · exact ih p (by rw [hgr]; exact List.mem_cons_of_mem _ h1)
      · rw [if_neg h] at hp
        rcases List.mem_cons.mp hp with h1 | h1
        · simp [h1]
        · exact ih p (by rw [hgr]; exact h1)

/-! ### Shape of the resolver output -/

/-- The four possible shapes of a resolver output in terms of the dead-heat
groups `gs` of the sorted lanes: the first group always becomes the first
band; the second and third bands are filled (or left empty) exactly as the
position-walk of the source dictates. -/
def FOShape (fo : FinishOrder) (gs : List (List (Fin 6))) : Prop :=
  (∃ g1 rest, gs = g1 :: rest ∧ 3 ≤ g1.length ∧
      fo = ⟨⟨g1, g1.length⟩, emptyBand, emptyBand⟩) ∨
  (∃ g1 g2 rest, gs = g1 :: g2 :: rest ∧ g1.length = 2 ∧
      fo = ⟨⟨g1, g1.length⟩, emptyBand, ⟨g2, g2.length⟩⟩) ∨
  (∃ g1 g2 rest, gs = g1 :: g2 :: rest ∧ g1.length = 1 ∧ 2 ≤ g2.length ∧
      fo = ⟨⟨g1, g1.length⟩, ⟨g2, g2.length⟩, emptyBand⟩) ∨
  (∃ g1 g2 g3 rest, gs = g1 :: g2 :: g3 :: rest ∧ g1.length = 1 ∧ g2.length = 1 ∧
      fo = ⟨⟨g1, g1.length⟩, ⟨g2, g2.length⟩, ⟨g3, g3.length⟩⟩)

theorem assignGo_stop (pos : Nat) (fo : FinishOrder) (gps : List (Int × List (Fin 6)))
    (h : 3 ≤ pos) : assignGo pos fo gps = fo := by
  cases gps with
  | nil => rfl
  | cons g rest =>
    simp only [assignGo]
    rw [if_neg (by omega), if_neg (by omega), if_neg (by omega)]

theorem assignGo_cons_zero (fo : FinishOrder) (t : Int) (g : List (Fin 6))
    (rest : List (Int × List (Fin 6))) :
    assignGo 0 fo ((t, g) :: rest) =
      assignGo g.length { fo with first := ⟨g, g.length⟩ } rest := by
  simp [assignGo]

theorem assignGo_cons_one (fo : FinishOrder) (t : Int) (g : List (Fin 6))
    (rest : List (Int × List (Fin 6))) :
    assignGo 1 fo ((t, g) :: rest) =
      assignGo (1 + g.length) { fo with second := ⟨g, g.length⟩ } rest := by
  simp [assignGo]

theorem assignGo_cons_two (fo : FinishOrder) (t : Int) (g : List (Fin 6))
    (rest : List (Int × List (Fin 6))) :
    assignGo 2 fo ((t, g) :: rest) =
      assignGo (2 + g.length) { fo with third := ⟨g, g.length⟩ } rest := by
  simp [assignGo]

theorem assignGo_shape (gps : List (Int × List (Fin 6)))
    (hne : ∀ p ∈ gps, p.2 ≠ [])
    (hlen : ((gps.map Prod.snd).flatten).length = 6) :
    FOShape (assignGo 0 ⟨emptyBand, emptyBand, emptyBand⟩ gps) (gps.map Prod.snd) := by
  match gps with
  | [] => simp at hlen
  | (t1, g1) :: rest1 =>
    have hg1 : g1 ≠ [] := hne (t1, g1) (List.mem_cons_self _ _)
    have hn1 : 1 ≤ g1.length := List.length_pos.mpr hg1
    rw [assignGo_cons_zero]
    rcases Nat.lt_or_ge g1.length 3 with h3 | h3
    · have hcase : g1.length = 1 ∨ g1.length = 2 := by omega
      rcases hcase with hcase | hcase
      · -- length 1: the second group exists and becomes the second band
        match rest1 with
        | [] =>
          simp only [List.map_cons, List.map_nil, List.flatten_cons, List.flatten_nil,
            List.length_append, List.length_nil] at hlen
          omega
        | (t2, g2) :: rest2 =>
          have hg2 : g2 ≠ [] := hne (t2, g2) (by simp)
          have hn2 : 1 ≤ g2.length := List.length_pos.mpr hg2
          rw [hcase, assignGo_cons_one]
          rcases Nat.lt_or_ge g2.length 2 with h2 | h2
          · -- second group also a singleton: a third group exists
            have hcase2 : g2.length = 1 := by omega
            match rest2 with
            | [] =>
              simp only [List.map_cons, List.map_nil, List.flatten_cons, List.flatten_nil,
                List.length_append, List.length_nil] at hlen
              omega
            | (t3, g3) :: rest3 =>
              have hg3 : g3 ≠ [] := hne (t3, g3) (by simp)
              have hn3 : 1 ≤ g3.length := List.length_pos.mpr hg3
              rw [hcase2, assignGo_cons_two, assignGo_stop _ _ _ (by omega)]
              refine Or.inr (Or.inr (Or.inr
                ⟨g1, g2, g3, rest3.map Prod.snd, by simp, hcase, hcase2, ?_⟩))
              rw [hcase, hcase2]
          · -- second group has length ≥ 2: position jumps past 3
            rw [assignGo_stop _ _ _ (by omega)]
            refine Or.inr (Or.inr (Or.inl
              ⟨g1, g2, rest2.map Prod.snd, by simp, hcase, h2, ?_⟩))
            rw [hcase]
      · -- length 2: next group (if any) becomes the third band
        match rest1 with
        | [] =>
          simp only [List.map_cons, List.map_nil, List.flatten_cons, List.flatten_nil,
            List.length_append, List.length_nil] at hlen
          omega
        | (t2, g2) :: rest2 =>
          have hg2 : g2 ≠ [] := hne (t2, g2) (by simp)
          have hn2 : 1 ≤ g2.length := List.length_pos.mpr hg2
          rw [hcase, assignGo_cons_two, assignGo_stop _ _ _ (by omega)]
          refine Or.inr (Or.inl ⟨g1, g2, rest2.map Prod.snd, by simp, hcase, ?_⟩)
          rw [hcase]
    · -- length ≥ 3: the walk stops right after the first band
      rw [assignGo_stop _ _ _ (by omega)]
      exact Or.inl ⟨g1, rest1.map Prod.snd, by simp, h3, rfl⟩

theorem calculateFinishOrder_shape (ft d : Fin 6 → Int) :
    ∃ gs : List (List (Fin 6)),
      gs.flatten.Nodup ∧ gs.flatten.length = 6 ∧ (∀ g ∈ gs, g ≠ []) ∧
      FOShape (calculateFinishOrder ft d) gs := by
  classical
  set entries :=
    (List.finRange 6).map (fun lane => SortEntry.mk lane (ft lane) (d lane)) with hentries
  set sorted := List.insertionSort entryLE entries with hsorted
  have hperm : (sorted.map SortEntry.lane).Perm ((entries.map SortEntry.lane)) :=
    (List.perm_insertionSort entryLE entries).map _
  have hmap : entries.map SortEntry.lane = List.finRange 6 := by
    rw [hentries, List.map_map]
    rfl
  have hlanesPerm : (sorted.map SortEntry.lane).Perm (List.finRange 6) := hmap ▸ hperm
  have hnodup : (sorted.map SortEntry.lane).Nodup :=
    (List.nodup_finRange 6).perm hlanesPerm.symm
  have hlen : (sorted.map SortEntry.lane).length = 6 := by
    rw [hlanesPerm.length_eq, List.length_finRange]
  refine ⟨(groupRuns sorted).map Prod.snd, ?_, ?_, ?_, ?_⟩
  · rw [groupRuns_flatten]; exact hnodup
  · rw [groupRuns_flatten]; exact hlen
  · intro g hg
    obtain ⟨p, hp, hpg⟩ := List.mem_map.mp hg
    exact hpg ▸ groupRuns_ne_nil sorted p hp
  · have := assignGo_shape (groupRuns sorted) (groupRuns_ne_nil sorted)
      (by rw [groupRuns_flatten]; exact hlen)
    exact this

/-! ### Credit conservation of one accumulation -/

theorem sum_bumpAll_div (g : List (Fin 6)) (r : ℚ) (f : Fin 6 → ℚ)
    (h : g.length ≠ 0) :
    (∑ a : Fin 6, bumpAll (r / (g.length : ℚ)) g f a) = (∑ a : Fin 6, f a) + r := by
  rw [bumpAll_sum]
  have : (g.length : ℚ) ≠ 0 := Nat.cast_ne_zero.mpr h
  field_simp

theorem sum_bumpAll_one (g : List (Fin 6)) (f : Fin 6 → ℚ) :
    (∑ a : Fin 6, bumpAll 1 g f a) = (∑ a : Fin 6, f a) + (g.length : ℚ) := by
  rw [bumpAll_sum, mul_one]

set_option maxHeartbeats 1600000 in
/-- One accumulation of any resolver output adds exactly 1 win credit,
2 place credits and 3 show credits in total. -/
theorem accumulateStats_sum_delta (ft d : Fin 6 → Int) (stats : LaneStatsMap) :
    ((∑ a : Fin 6, (accumulateStats stats (calculateFinishOrder ft d)).winCredits a)
        = (∑ a : Fin 6, stats.winCredits a) + 1) ∧
    ((∑ a : Fin 6, (accumulateStats stats (calculateFinishOrder ft d)).placeCredits a)
        = (∑ a : Fin 6, stats.placeCredits a) + 2) ∧
    ((∑ a : Fin 6, (accumulateStats stats (calculateFinishOrder ft d)).showCredits a)
        = (∑ a : Fin 6, stats.showCredits a) + 3) := by
  have he1 : emptyBand.count = 0 := rfl
  have he2 : emptyBand.lanes.length = 0 := rfl
  obtain ⟨gs, hnodup, hlen, hne, hshape⟩ := calculateFinishOrder_shape ft d
  rcases hshape with ⟨g1, rest, hgs, h3, hfo⟩ | ⟨g1, g2, rest, hgs, h2, hfo⟩ |
    ⟨g1, g2, rest, hgs, h1, h2, hfo⟩ | ⟨g1, g2, g3, rest, hgs, h1, h2, hfo⟩
  · -- everything decided by the first band (3 or more tied for first)
    have hq1 : (g1.length : ℚ) ≠ 0 := Nat.cast_ne_zero.mpr (by omega)
    rw [hfo]
    refine ⟨?_, ?_, ?_⟩
    · simp only [accumulateStats, accWin, bumpAll_sum]
      field_simp
    · simp only [accumulateStats, accPlace]
      split_ifs
      all_goals try (exfalso; omega)
      all_goals simp only [bumpAll_sum, he2]
      push_cast
      field_simp
    · simp only [accumulateStats, accShow]
      split_ifs
      all_goals try (exfalso; omega)
      all_goals simp only [bumpAll_sum, he2]
      · have hx : g1.length = 3 := by omega
        rw [hx]
        push_cast
        ring
      · push_cast
        field_simp
  · -- two tied for first, the next group becomes the third band
    have hg2 : g2 ≠ [] := hne g2 (by rw [hgs]; simp)
    have hn2 : 1 ≤ g2.length := List.length_pos.mpr hg2
    have hq2 : (g2.length : ℚ) ≠ 0 := Nat.cast_ne_zero.mpr (by omega)
    rw [hfo]
    refine ⟨?_, ?_, ?_⟩
    · simp only [accumulateStats, accWin, bumpAll_sum]
      have hq1 : (g1.length : ℚ) ≠ 0 := Nat.cast_ne_zero.mpr (by omega)
      field_simp
    · simp only [accumulateStats, accPlace]
      split_ifs
      all_goals try (exfalso; omega)
      all_goals simp only [bumpAll_sum, he2]
      rw [h2]
      push_cast
      ring
    · simp only [accumulateStats, accShow]
      split_ifs
      all_goals try (exfalso; omega)
      all_goals simp only [bumpAll_sum, he2]
      · have hx : g2.length = 1 := by omega
        rw [h2, hx]
        push_cast
        ring
      · rw [h2]
        norm_num
        field_simp
        ring
  · -- singleton first band, two or more tied for second
    have hq1 : (g1.length : ℚ) ≠ 0 := Nat.cast_ne_zero.mpr (by omega)
    have hq2 : (g2.length : ℚ) ≠ 0 := Nat.cast_ne_zero.mpr (by omega)
    rw [hfo]
    refine ⟨?_, ?_, ?_⟩
    · simp only [accumulateStats, accWin, bumpAll_sum]
      field_simp
    · simp only [accumulateStats, accPlace]
      split_ifs
      all_goals try (exfalso; omega)
      all_goals simp only [bumpAll_sum, he2]
      rw [h1]
      norm_num
      field_simp
      ring
    · simp only [accumulateStats, accShow]
      split_ifs
      all_goals try (exfalso; omega)
      all_goals simp only [bumpAll_sum, he2]
      · have hx : g2.length = 2 := by omega
        rw [h1, hx]
        push_cast
        ring
      · rw [h1]
        norm_num
        field_simp
        ring
  · -- singleton first and second bands, the next group is the third band
    have hg3 : g3 ≠ [] := hne g3 (by rw [hgs]; simp)
    have hn3 : 1 ≤ g3.length := List.length_pos.mpr hg3
    have hq1 : (g1.length : ℚ) ≠ 0 := Nat.cast_ne_zero.mpr (by omega)
    have hq3 : (g3.length : ℚ) ≠ 0 := Nat.cast_ne_zero.mpr (by omega)
    rw [hfo]
    refine ⟨?_, ?_, ?_⟩
    · simp only [accumulateStats, accWin, bumpAll_sum]
      field_simp
    · simp only [accumulateStats, accPlace]
      split_ifs
      all_goals try (exfalso; omega)
      all_goals simp only [bumpAll_sum, he2]
      rw [h1, h2]
      push_cast
      ring
    · simp only [accumulateStats, accShow]
      split_ifs
      all_goals try (exfalso; omega)
      all_goals simp only [bumpAll_sum, he2]
      · have hx : g3.length = 1 := by omega
        rw [h1, h2, hx]
        push_cast
        ring
      · rw [h1, h2]
        norm_num
        field_simp
        ring

/-! ### Per-lane bounds of one accumulation -/

theorem two_term_bound (c1 c2 : ℕ) (s1 s2 : ℚ) (hc : c1 + c2 ≤ 1)
    (hs1 : 0 ≤ s1) (hb1 : s1 ≤ 1) (hs2 : 0 ≤ s2) (hb2 : s2 ≤ 1) :
    0 ≤ (c1 : ℚ) * s1 + (c2 : ℚ) * s2 ∧ (c1 : ℚ) * s1 + (c2 : ℚ) * s2 ≤ 1 := by
  have u1 : (c1 : ℚ) * s1 ≤ c1 := mul_le_of_le_one_right (by positivity) hb1
  have u2 : (c2 : ℚ) * s2 ≤ c2 := mul_le_of_le_one_right (by positivity) hb2
  have l1 : 0 ≤ (c1 : ℚ) * s1 := mul_nonneg (by positivity) hs1
  have l2 : 0 ≤ (c2 : ℚ) * s2 := mul_nonneg (by positivity) hs2
  have hsum : (c1 : ℚ) + (c2 : ℚ) ≤ 1 := by exact_mod_cast hc
  exact ⟨by linarith, by linarith⟩

theorem three_term_bound (c1 c2 c3 : ℕ) (s1 s2 s3 : ℚ) (hc : c1 + c2 + c3 ≤ 1)
    (hs1 : 0 ≤ s1) (hb1 : s1 ≤ 1) (hs2 : 0 ≤ s2) (hb2 : s2 ≤ 1)
    (hs3 : 0 ≤ s3) (hb3 : s3 ≤ 1) :
    0 ≤ (c1 : ℚ) * s1 + (c2 : ℚ) * s2 + (c3 : ℚ) * s3 ∧
      (c1 : ℚ) * s1 + (c2 : ℚ) * s2 + (c3 : ℚ) * s3 ≤ 1 := by
  have u1 : (c1 : ℚ) * s1 ≤ c1 := mul_le_of_le_one_right (by positivity) hb1
  have u2 : (c2 : ℚ) * s2 ≤ c2 := mul_le_of_le_one_right (by positivity) hb2
  have u3 : (c3 : ℚ) * s3 ≤ c3 := mul_le_of_le_one_right (by positivity) hb3
  have l1 : 0 ≤ (c1 : ℚ) * s1 := mul_nonneg (by positivity) hs1
  have l2 : 0 ≤ (c2 : ℚ) * s2 := mul_nonneg (by positivity) hs2
  have l3 : 0 ≤ (c3 : ℚ) * s3 := mul_nonneg (by positivity) hs3
  have hsum : (c1 : ℚ) + (c2 : ℚ) + (c3 : ℚ) ≤ 1 := by exact_mod_cast hc
  exact ⟨by linarith, by linarith⟩

theorem accWin_lane_bound (first : Band) (w : Fin 6 → ℚ) (a : Fin 6)
    (hnd : first.lanes.Nodup) (hn1 : 1 ≤ first.count) :
    w a ≤ accWin first w a ∧ accWin first w a ≤ w a + 1 := by
  simp only [accWin, bumpAll_apply]
  have hc : List.count a first.lanes ≤ 1 := List.nodup_iff_count_le_one.mp hnd a
  have hpos : (0 : ℚ) < (first.count : ℚ) := by exact_mod_cast hn1
  have hs0 : (0 : ℚ) ≤ 1 / (first.count : ℚ) := by positivity
  have hs1 : 1 / (first.count : ℚ) ≤ 1 := by
    rw [div_le_one hpos]
    exact_mod_cast hn1
  obtain ⟨lo, hi⟩ := two_term_bound (List.count a first.lanes) 0 (1 / (first.count : ℚ)) 0
    (by omega) hs0 hs1 le_rfl zero_le_one
  push_cast at lo hi
  constructor <;> linarith

theorem accPlace_lane_bound (first second : Band) (p : Fin 6 → ℚ) (a : Fin 6)
    (hnd : (first.lanes ++ second.lanes).Nodup) (hn1 : 1 ≤ first.count) :
    p a ≤ accPlace first second p a ∧ accPlace first second p a ≤ p a + 1 := by
  have hcc : List.count a first.lanes + List.count a second.lanes ≤ 1 := by
    have h := List.nodup_iff_count_le_one.mp hnd a
    rwa [List.count_append] at h
  simp only [accPlace]
  split_ifs
  all_goals dsimp only
  all_goals try (exfalso; omega)
  · -- first fits, second fits the remaining spot
    simp only [bumpAll_apply]
    obtain ⟨lo, hi⟩ := two_term_bound (List.count a first.lanes) (List.count a second.lanes)
      1 1 hcc zero_le_one le_rfl zero_le_one le_rfl
    constructor <;> linarith
  · -- first fits, second overflows the remaining spot
    simp only [bumpAll_apply]
    have hq2 : (0 : ℚ) < (second.count : ℚ) := by exact_mod_cast (by omega : 0 < second.count)
    have hs0 : (0 : ℚ) ≤ ((2 - first.count : ℕ) : ℚ) / (second.count : ℚ) := by positivity
    have hs1 : ((2 - first.count : ℕ) : ℚ) / (second.count : ℚ) ≤ 1 := by
      rw [div_le_one hq2]
      exact_mod_cast (by omega : (2 - first.count : ℕ) ≤ second.count)
    obtain ⟨lo, hi⟩ := two_term_bound (List.count a first.lanes) (List.count a second.lanes)
      1 (((2 - first.count : ℕ) : ℚ) / (second.count : ℚ)) hcc zero_le_one le_rfl hs0 hs1
    constructor <;> linarith
  · -- first fits, nothing cascades
    simp only [bumpAll_apply]
    obtain ⟨lo, hi⟩ := two_term_bound (List.count a first.lanes) 0 1 0
      (by omega) zero_le_one le_rfl le_rfl zero_le_one
    push_cast at lo hi
    constructor <;> linarith
  · -- first overflows both place spots
    simp only [bumpAll_apply]
    have hq1 : (0 : ℚ) < (first.count : ℚ) := by exact_mod_cast (by omega : 0 < first.count)
    have hs0 : (0 : ℚ) ≤ ((2 : ℕ) : ℚ) / (first.count : ℚ) := by positivity
    have hs1 : ((2 : ℕ) : ℚ) / (first.count : ℚ) ≤ 1 := by
      rw [div_le_one hq1]
      exact_mod_cast (by omega : (2 : ℕ) ≤ first.count)
    obtain ⟨lo, hi⟩ := two_term_bound (List.count a first.lanes) 0
      (((2 : ℕ) : ℚ) / (first.count : ℚ)) 0 (by omega) hs0 hs1 le_rfl zero_le_one
    push_cast at lo hi
    constructor <;> linarith

theorem accShow_lane_bound (first second third : Band) (s : Fin 6 → ℚ) (a : Fin 6)
    (hnd : (first.lanes ++ second.lanes ++ third.lanes).Nodup) (hn1 : 1 ≤ first.count) :
    s a ≤ accShow first second third s a ∧ accShow first second third s a ≤ s a + 1 := by
  have hcc : List.count a first.lanes + List.count a second.lanes +
      List.count a third.lanes ≤ 1 := by
    have h := List.nodup_iff_count_le_one.mp hnd a
    rwa [List.count_append, List.count_append] at h
  simp only [accShow]
  split_ifs
  all_goals dsimp only
  all_goals try (exfalso; omega)
  all_goals simp only [bumpAll_apply]
  · -- all three bands fit
    obtain ⟨lo, hi⟩ := three_term_bound (List.count a first.lanes)
      (List.count a second.lanes) (List.count a third.lanes) 1 1 1 hcc
      zero_le_one le_rfl zero_le_one le_rfl zero_le_one le_rfl
    constructor <;> linarith
  · -- first and second fit, third overflows the remaining spots
    have hq3 : (0 : ℚ) < (third.count : ℚ) := by exact_mod_cast (by omega : 0 < third.count)
    have hs0 : (0 : ℚ) ≤ ((3 - (first.count + second.count) : ℕ) : ℚ) / (third.count : ℚ) := by
      positivity
    have hs1 : ((3 - (first.count + second.count) : ℕ) : ℚ) / (third.count : ℚ) ≤ 1 := by
      rw [div_le_one hq3]
      exact_mod_cast (by omega : (3 - (first.count + second.count) : ℕ) ≤ third.count)
    obtain ⟨lo, hi⟩ := three_term_bound (List.count a first.lanes)
      (List.count a second.lanes) (List.count a third.lanes) 1 1
      (((3 - (first.count + second.count) : ℕ) : ℚ) / (third.count : ℚ)) hcc
      zero_le_one le_rfl zero_le_one le_rfl hs0 hs1
    constructor <;> linarith
  · -- first and second fit, third contributes nothing
    obtain ⟨lo, hi⟩ := three_term_bound (List.count a first.lanes)
      (List.count a second.lanes) 0 1 1 0 (by omega)
      zero_le_one le_rfl zero_le_one le_rfl le_rfl zero_le_one
    push_cast at lo hi
    constructor <;> linarith
  · -- first fits, second overflows the remaining spots
    have hq2 : (0 : ℚ) < (second.count : ℚ) := by exact_mod_cast (by omega : 0 < second.count)
    have hs0 : (0 : ℚ) ≤ ((3 - first.count : ℕ) : ℚ) / (second.count : ℚ) := by positivity
    have hs1 : ((3 - first.count : ℕ) : ℚ) / (second.count : ℚ) ≤ 1 := by
      rw [div_le_one hq2]
      exact_mod_cast (by omega : (3 - first.count : ℕ) ≤ second.count)
    obtain ⟨lo, hi⟩ := three_term_bound (List.count a first.lanes)
      (List.count a second.lanes) 0 1
      (((3 - first.count : ℕ) : ℚ) / (second.count : ℚ)) 0 (by omega)
      zero_le_one le_rfl hs0 hs1 le_rfl zero_le_one
    push_cast at lo hi
    constructor <;> linarith
  · -- second band empty or skipped, third fits
    obtain ⟨lo, hi⟩ := three_term_bound (List.count a first.lanes)
      (List.count a third.lanes) 0 1 1 0 (by omega)
      zero_le_one le_rfl zero_le_one le_rfl le_rfl zero_le_one
    push_cast at lo hi
    constructor <;> linarith
  · -- second band empty or skipped, third overflows
    have hq3 : (0 : ℚ) < (third.count : ℚ) := by exact_mod_cast (by omega : 0 < third.count)
    have hs0 : (0 : ℚ) ≤ ((3 - first.count : ℕ) : ℚ) / (third.count : ℚ) := by positivity
    have hs1 : ((3 - first.count : ℕ) : ℚ) / (third.count : ℚ) ≤ 1 := by
      rw [div_le_one hq3]
      exact_mod_cast (by omega : (3 - first.count : ℕ) ≤ third.count)
    obtain ⟨lo, hi⟩ := three_term_bound (List.count a first.lanes)
      (List.count a third.lanes) 0 1
      (((3 - first.count : ℕ) : ℚ) / (third.count : ℚ)) 0 (by omega)
      zero_le_one le_rfl hs0 hs1 le_rfl zero_le_one
    push_cast at lo hi
    constructor <;> linarith
  · -- only the first band contributes
    obtain ⟨lo, hi⟩ := three_term_bound (List.count a first.lanes) 0 0 1 0 0 (by omega)
      zero_le_one le_rfl le_rfl zero_le_one le_rfl zero_le_one
    push_cast at lo hi
    constructor <;> linarith
  · -- first band overflows all three spots
    have hq1 : (0 : ℚ) < (first.count : ℚ) := by exact_mod_cast (by omega : 0 < first.count)
    have hs0 : (0 : ℚ) ≤ ((3 : ℕ) : ℚ) / (first.count : ℚ) := by positivity
    have hs1 : ((3 : ℕ) : ℚ) / (first.count : ℚ) ≤ 1 := by
      rw [div_le_one hq1]
      exact_mod_cast (by omega : (3 : ℕ) ≤ first.count)
    obtain ⟨lo, hi⟩ := three_term_bound (List.count a first.lanes) 0 0
      (((3 : ℕ) : ℚ) / (first.count : ℚ)) 0 0 (by omega) hs0 hs1 le_rfl zero_le_one
      le_rfl zero_le_one
    push_cast at lo hi
    constructor <;> linarith

/-- One accumulation of a resolver output changes the win, place
and show credits of each lane by an amount in `[0, 1]`. -/
theorem accumulateStats_lane_bounds (ft d : Fin 6 → Int) (stats : LaneStatsMap) (a : Fin 6) :
    (stats.winCredits a ≤ (accumulateStats stats (calculateFinishOrder ft d)).winCredits a ∧
      (accumulateStats stats (calculateFinishOrder ft d)).winCredits a ≤ stats.winCredits a + 1) ∧
    (stats.placeCredits a ≤ (accumulateStats stats (calculateFinishOrder ft d)).placeCredits a ∧
      (accumulateStats stats (calculateFinishOrder ft d)).placeCredits a ≤ stats.placeCredits a + 1) ∧
    (stats.showCredits a ≤ (accumulateStats stats (calculateFinishOrder ft d)).showCredits a ∧
      (accumulateStats stats (calculateFinishOrder ft d)).showCredits a ≤ stats.showCredits a + 1) := by
  obtain ⟨gs, hnodup, hlen, hne, hshape⟩ := calculateFinishOrder_shape ft d
  rcases hshape with ⟨g1, rest, hgs, h3, hfo⟩ | ⟨g1, g2, rest, hgs, h2, hfo⟩ |
    ⟨g1, g2, rest, hgs, h1, h2, hfo⟩ | ⟨g1, g2, g3, rest, hgs, h1, h2, hfo⟩ <;>
    rw [hgs, List.flatten_cons] at hnodup <;> rw [hfo] <;>
    simp only [accumulateStats]
  · -- three or more tied for first
    have hnd1 : g1.Nodup := hnodup.of_append_left
    refine ⟨accWin_lane_bound _ _ _ hnd1 (by omega : 1 ≤ g1.length), ?_, ?_⟩
    · exact accPlace_lane_bound _ _ _ _ (by simpa [emptyBand] using hnd1)
        (by omega : 1 ≤ g1.length)
    · exact accShow_lane_bound _ _ _ _ _ (by simpa [emptyBand] using hnd1)
        (by omega : 1 ≤ g1.length)
  · -- two tied for first, next group third
    rw [List.flatten_cons, ← List.append_assoc] at hnodup
    have hnd12 : (g1 ++ g2).Nodup := hnodup.of_append_left
    have hnd1 : g1.Nodup := hnd12.of_append_left
    refine ⟨accWin_lane_bound _ _ _ hnd1 (by omega : 1 ≤ g1.length), ?_, ?_⟩
    · exact accPlace_lane_bound _ _ _ _ (by simpa [emptyBand] using hnd1)
        (by omega : 1 ≤ g1.length)
    · exact accShow_lane_bound _ _ _ _ _ (by simpa [emptyBand] using hnd12)
        (by omega : 1 ≤ g1.length)
  · -- singleton first, two or more tied for second
    rw [List.flatten_cons, ← List.append_assoc] at hnodup
    have hnd12 : (g1 ++ g2).Nodup := hnodup.of_append_left
    have hnd1 : g1.Nodup := hnd12.of_append_left
    refine ⟨accWin_lane_bound _ _ _ hnd1 (by omega : 1 ≤ g1.length), ?_, ?_⟩
    · exact accPlace_lane_bound _ _ _ _ hnd12 (by omega : 1 ≤ g1.length)
    · exact accShow_lane_bound _ _ _ _ _ (by simpa [emptyBand] using hnd12)
        (by omega : 1 ≤ g1.length)
  · -- singleton first and second, next group third
    rw [List.flatten_cons, List.flatten_cons, ← List.append_assoc,
      ← List.append_assoc] at hnodup
    have hnd123 : (g1 ++ g2 ++ g3).Nodup := hnodup.of_append_left
    have hnd12 : (g1 ++ g2).Nodup := hnd123.of_append_left
    have hnd1 : g1.Nodup := hnd12.of_append_left
    refine ⟨accWin_lane_bound _ _ _ hnd1 (by omega : 1 ≤ g1.length), ?_, ?_⟩
    · exact accPlace_lane_bound _ _ _ _ hnd12 (by omega : 1 ≤ g1.length)
    · exact accShow_lane_bound _ _ _ _ _ hnd123 (by omega : 1 ≤ g1.length)

/-! ### Invariants of the simulation loop -/

theorem simulateFullRace_finishOrder (seed : Nat) (scores : Fin 6 → Int) :
    ∃ ft d, (simulateFullRace seed scores).finishOrder = calculateFinishOrder ft d :=
  ⟨_, _, rfl⟩

theorem runSims_sums (scores : Fin 6 → Int) :
    ∀ (n x : Nat) (stats : LaneStatsMap),
      ((∑ a : Fin 6, (runSims scores n x stats).winCredits a)
          = (∑ a : Fin 6, stats.winCredits a) + (n : ℚ)) ∧
      ((∑ a : Fin 6, (runSims scores n x stats).placeCredits a)
          = (∑ a : Fin 6, stats.placeCredits a) + 2 * (n : ℚ)) ∧
      ((∑ a : Fin 6, (runSims scores n x stats).showCredits a)
          = (∑ a : Fin 6, stats.showCredits a) + 3 * (n : ℚ)) := by
  intro n
  induction n with
  | zero => intro x stats; simp [runSims]
  | succ n ih =>
    intro x stats
    simp only [runSims]
    obtain ⟨hw, hp, hs⟩ := ih (splitmix32Next x).1
      (accumulateStats stats (simulateFullRace (splitmix32Next x).2 scores).finishOrder)
    obtain ⟨ft, d, hfo⟩ := simulateFullRace_finishOrder (splitmix32Next x).2 scores
    rw [hfo] at hw hp hs
    obtain ⟨dw, dp, ds⟩ := accumulateStats_sum_delta ft d stats
    rw [hfo]
    refine ⟨?_, ?_, ?_⟩
    · rw [hw, dw]; push_cast; ring
    · rw [hp, dp]; push_cast; ring
    · rw [hs, ds]; push_cast; ring

theorem runSims_lane_bounds (scores : Fin 6 → Int) :
    ∀ (n x : Nat) (stats : LaneStatsMap) (a : Fin 6),
      (stats.winCredits a ≤ (runSims scores n x stats).winCredits a ∧
        (runSims scores n x stats).winCredits a ≤ stats.winCredits a + (n : ℚ)) ∧
      (stats.placeCredits a ≤ (runSims scores n x stats).placeCredits a ∧
        (runSims scores n x stats).placeCredits a ≤ stats.placeCredits a + (n : ℚ)) ∧
      (stats.showCredits a ≤ (runSims scores n x stats).showCredits a ∧
        (runSims scores n x stats).showCredits a ≤ stats.showCredits a + (n : ℚ)) := by
  intro n
  induction n with
  | zero => intro x stats a; simp [runSims]
  | succ n ih =>
    intro x stats a
    simp only [runSims]
    obtain ⟨hw, hp, hs⟩ := ih (splitmix32Next x).1
      (accumulateStats stats (simulateFullRace (splitmix32Next x).2 scores).finishOrder) a
    obtain ⟨ft, d, hfo⟩ := simulateFullRace_finishOrder (splitmix32Next x).2 scores
    rw [hfo] at hw hp hs
    obtain ⟨bw, bp, bs⟩ := accumulateStats_lane_bounds ft d stats a
    rw [hfo]
    push_cast
    refine ⟨⟨?_, ?_⟩, ⟨?_, ?_⟩, ⟨?_, ?_⟩⟩
    · linarith [hw.1, bw.1]
    · linarith [hw.2, bw.2]
    · linarith [hp.1, bp.1]
    · linarith [hp.2, bp.2]
    · linarith [hs.1, bs.1]
    · linarith [hs.2, bs.2]

/-! ### Per-tick movement lemmas -/

theorem laneStep_distance_self (bps : Fin 6 → Nat) (t : Nat) (st : RaceState) (a : Fin 6) :
    st.distances a + 1 ≤ (laneStep bps t st a).distances a := by
  simp only [laneStep]
  rw [Function.update_same]
  split_ifs <;> omega

theorem laneStep_distance_other (bps : Fin 6 → Nat) (t : Nat) (st : RaceState)
    (a b : Fin 6) (h : b ≠ a) :
    (laneStep bps t st a).distances b = st.distances b := by
  simp only [laneStep]
  rw [Function.update_noteq h]

theorem foldl_laneStep_not_mem (bps : Fin 6 → Nat) (t : Nat) :
    ∀ (L : List (Fin 6)) (st : RaceState) (a : Fin 6), a ∉ L →
      ((L.foldl (laneStep bps t) st).distances a = st.distances a) := by
  intro L
  induction L with
  | nil => intro st a _; rfl
  | cons b bs ih =>
    intro st a ha
    rw [List.foldl_cons, ih _ _ (List.not_mem_of_not_mem_cons ha),
      laneStep_distance_other _ _ _ _ _ (List.ne_of_not_mem_cons ha)]

theorem foldl_laneStep_ge (bps : Fin 6 → Nat) (t : Nat) :
    ∀ (L : List (Fin 6)) (st : RaceState) (a : Fin 6), a ∈ L → L.Nodup →
      st.distances a + 1 ≤ (L.foldl (laneStep bps t) st).distances a := by
  intro L
  induction L with
  | nil => intro st a ha; cases ha
  | cons b bs ih =>
    intro st a ha hnd
    rw [List.foldl_cons]
    rcases eq_or_ne a b with rfl | hab
    · rw [foldl_laneStep_not_mem _ _ _ _ _ ((List.nodup_cons.mp hnd).1)]
      exact laneStep_distance_self bps t st a
    · have ha2 : a ∈ bs := by
        rcases List.mem_cons.mp ha with h | h
        · exact absurd h hab
        · exact h
      calc st.distances a + 1
          = (laneStep bps t st b).distances a + 1 := by
            rw [laneStep_distance_other _ _ _ _ _ hab]
        _ ≤ _ := ih _ _ ha2 (List.nodup_cons.mp hnd).2

/-! ### Claim theorems -/

/-- Claim C8: in every executed tick of `simulateFullRace`, the
distance of every lane increases by at least 1 unit (the floored biased step is replaced
by 1 when it would be 0), for every bias vector, tick index and reachable
race state — so no lane ever advances by zero. -/
theorem claim_C8_minimum_step (bps : Fin 6 → Nat) (t : Nat) (st : RaceState) (a : Fin 6) :
    st.distances a + 1 ≤ (tick bps t st).distances a :=
  foldl_laneStep_ge bps t (List.finRange 6) st a (List.mem_finRange a) (List.nodup_finRange 6)

/-- Claim C3: for every 6-lane `finishTimes`/`distances` input, one call to
`accumulateStats` on the band structure returned by `calculateFinishOrder`
increases the total win credits by exactly 1, the total place credits by
exactly 2 and the total show credits by exactly 3, in exact rational
arithmetic, whatever the dead-heat grouping is. -/
theorem claim_C3_credit_conservation (ft d : Fin 6 → Int) (stats : LaneStatsMap) :
    ((∑ a : Fin 6, (accumulateStats stats (calculateFinishOrder ft d)).winCredits a)
        = (∑ a : Fin 6, stats.winCredits a) + 1) ∧
    ((∑ a : Fin 6, (accumulateStats stats (calculateFinishOrder ft d)).placeCredits a)
        = (∑ a : Fin 6, stats.placeCredits a) + 2) ∧
    ((∑ a : Fin 6, (accumulateStats stats (calculateFinishOrder ft d)).showCredits a)
        = (∑ a : Fin 6, stats.showCredits a) + 3) :=
  accumulateStats_sum_delta ft d stats

/-- Claim C10: `calculateFinishOrder` always returns a first band with at
least one lane and a nonempty lanes list, so the win-share division
`1 / first.count` in `accumulateStats` never divides by zero: multiplying
the share back by the count gives exactly 1. -/
theorem claim_C10_first_band_nonempty (ft d : Fin 6 → Int) :
    1 ≤ (calculateFinishOrder ft d).first.count ∧
    (calculateFinishOrder ft d).first.lanes ≠ [] ∧
    (1 / ((calculateFinishOrder ft d).first.count : ℚ)) *
      ((calculateFinishOrder ft d).first.count : ℚ) = 1 := by
  obtain ⟨gs, hnodup, hlen, hne, hshape⟩ := calculateFinishOrder_shape ft d
  have main : 1 ≤ (calculateFinishOrder ft d).first.count ∧
      (calculateFinishOrder ft d).first.lanes ≠ [] := by
    rcases hshape with ⟨g1, rest, hgs, h3, hfo⟩ | ⟨g1, g2, rest, hgs, h2, hfo⟩ |
      ⟨g1, g2, rest, hgs, h1, h2, hfo⟩ | ⟨g1, g2, g3, rest, hgs, h1, h2, hfo⟩ <;>
      rw [hfo] <;>
      exact ⟨(by omega : 1 ≤ g1.length), hne g1 (by rw [hgs]; simp)⟩
  refine ⟨main.1, main.2, ?_⟩
  have hq : ((calculateFinishOrder ft d).first.count : ℚ) ≠ 0 :=
    Nat.cast_ne_zero.mpr (by omega)
  field_simp

/-- Claim C1 (failing input): on the input where lane 0 has the unfinished
sentinel `-1` and distance 500 while lanes 1..5 finished at increasing
positive times with distance past the line, `calculateFinishOrder` puts the
unfinished lane 0 alone in first place — the sentinel sorts first, not
last. -/
theorem claim_C1_unfinished_sentinel_sorts_first :
    (calculateFinishOrder
        (fun a => if a = 0 then -1 else (a.val : Int) * 10000)
        (fun a => if a = 0 then 500 else 1010)).first.lanes = [(0 : Fin 6)] ∧
    (calculateFinishOrder
        (fun a => if a = 0 then -1 else (a.val : Int) * 10000)
        (fun a => if a = 0 then 500 else 1010)).first.count = 1 := by
  constructor <;> decide

/-- Claim C9: per lane per tick, the bit generator advances exactly twice
when `rem = (baseSpeed * bias) % 10000` is positive and exactly once when
`rem = 0` (the rounding draw is skipped); and for base speeds 1..10, `rem`
is 0 exactly when the bias of the lane is 10000, i.e. exactly when its clamped
score is 10. -/
theorem claim_C9_conditional_second_draw (bps : Fin 6 → Nat) (t : Nat)
    (st : RaceState) (a : Fin 6) :
    ((laneStep bps t st a).rng =
      (if 0 < ((st.rng.next.s0 % 10 + 1) * bps a) % 10000
        then st.rng.next.next else st.rng.next)) ∧
    (∀ s : Int, ∀ b : Nat, 1 ≤ b → b ≤ 10 →
      ((b * scoreBps s) % 10000 = 0 ↔ scoreBps s = 10000)) ∧
    (∀ s : Int, scoreBps s = 10000 ↔ clampScore s = 10) := by
  refine ⟨?_, ?_, ?_⟩
  · simp only [laneStep, FastRng.roll, SPEED_RANGE]
    norm_num
    split_ifs <;> rfl
  · intro s b hb1 hb10
    have hcl : 1 ≤ clampScore s ∧ clampScore s ≤ 10 := by
      unfold clampScore; split_ifs <;> omega
    have key : ∀ c : Fin 10, ∀ bb : Fin 10,
        (((bb.val + 1) * (9585 + (c.val * 415) / 9)) % 10000 = 0 ↔
          (9585 + (c.val * 415) / 9) = 10000) := by decide
    have hform : scoreBps s = 9585 + (((clampScore s - 1).toNat) * 415) / 9 := rfl
    have hc9 : (clampScore s - 1).toNat < 10 := by omega
    have hb9 : b - 1 < 10 := by omega
    have h := key ⟨(clampScore s - 1).toNat, hc9⟩ ⟨b - 1, hb9⟩
    simp only [] at h
    rw [show b - 1 + 1 = b from by omega] at h
    rw [hform]
    exact h
  · intro s
    have hcl : 1 ≤ clampScore s ∧ clampScore s ≤ 10 := by
      unfold clampScore; split_ifs <;> omega
    have key2 : ∀ c : Fin 10, (9585 + (c.val * 415) / 9 = 10000 ↔ c.val = 9) := by decide
    have hform : scoreBps s = 9585 + (((clampScore s - 1).toNat) * 415) / 9 := rfl
    have hc9 : (clampScore s - 1).toNat < 10 := by omega
    have h := key2 ⟨(clampScore s - 1).toNat, hc9⟩
    rw [hform]
    simp only [] at h
    rw [h]
    omega

/-- Witness for C9 at a concrete input: base speed 3 with score 5, and the
generator state after one lane step of a concrete race state. -/
theorem claim_C9_witness :
    ((3 * scoreBps 5) % 10000 = 0 ↔ scoreBps 5 = 10000) ∧
    (scoreBps 10 = 10000 ↔ clampScore 10 = 10) :=
  ⟨(claim_C9_conditional_second_draw (fun _ => 0) 0
      ⟨⟨1, 2, 3, 4⟩, fun _ => 0, fun _ => -1⟩ 0).2.1 5 3 (by norm_num) (by norm_num),
   (claim_C9_conditional_second_draw (fun _ => 0) 0
      ⟨⟨1, 2, 3, 4⟩, fun _ => 0, fun _ => -1⟩ 0).2.2 10⟩

/-- Claim C7: for every integer input, `scoreBps` equals
`9585 + floor((s - 1) * 415 / 9)` on the clamped score `s`; it gives 9585
at score 1 and 10000 at score 10, and it is strictly increasing in the
clamped score. -/
theorem claim_C7_scoreBps_formula (r : Int) :
    ((scoreBps r : Int) = 9585 + ((clampScore r - 1) * 415) / 9) ∧
    scoreBps 1 = 9585 ∧ scoreBps 10 = 10000 ∧
    (∀ a b : Int, clampScore a < clampScore b → scoreBps a < scoreBps b) := by
  refine ⟨?_, by decide, by decide, ?_⟩
  · have hcl : 1 ≤ clampScore r ∧ clampScore r ≤ 10 := by
      unfold clampScore; split_ifs <;> omega
    have h1 : (0 : ℤ) ≤ clampScore r - 1 := by omega
    rw [show scoreBps r = 9585 + ((clampScore r - 1).toNat * 415) / 9 from rfl]
    push_cast [Int.ofNat_ediv]
    rw [Int.toNat_of_nonneg h1]
  · intro a b hab
    have hca : 1 ≤ clampScore a ∧ clampScore a ≤ 10 := by
      unfold clampScore; split_ifs <;> omega
    have hcb : 1 ≤ clampScore b ∧ clampScore b ≤ 10 := by
      unfold clampScore; split_ifs <;> omega
    have key : ∀ x y : Fin 10, x.val < y.val →
        9585 + (x.val * 415) / 9 < 9585 + (y.val * 415) / 9 := by decide
    have hxa : (clampScore a - 1).toNat < 10 := by omega
    have hxb : (clampScore b - 1).toNat < 10 := by omega
    have h := key ⟨(clampScore a - 1).toNat, hxa⟩ ⟨(clampScore b - 1).toNat, hxb⟩
      (by simp only []; omega)
    rw [show scoreBps a = 9585 + ((clampScore a - 1).toNat * 415) / 9 from rfl,
      show scoreBps b = 9585 + ((clampScore b - 1).toNat * 415) / 9 from rfl]
    exact h

/-- Witness for C7 at concrete inputs: the formula at raw score 37 (clamped
to 10), and strict monotonicity from clamped score 3 to 7. -/
theorem claim_C7_witness :
    ((scoreBps 37 : Int) = 9585 + ((clampScore 37 - 1) * 415) / 9) ∧
    (clampScore 3 < clampScore 7 ∧ scoreBps 3 < scoreBps 7) :=
  ⟨(claim_C7_scoreBps_formula 37).1,
   by decide, (claim_C7_scoreBps_formula 0).2.2.2 3 7 (by decide)⟩

/-- Claim C6: if all six lanes form a single dead-heat band for first place
(count 6, second and third bands empty), one accumulation adds exactly 1/6
win credit, 2/6 place credit and 3/6 show credit to every lane. -/
theorem claim_C6_six_way_tie (stats : LaneStatsMap) (a : Fin 6) :
    ((accumulateStats stats
        ⟨⟨[0, 1, 2, 3, 4, 5], 6⟩, emptyBand, emptyBand⟩).winCredits a
      = stats.winCredits a + 1 / 6) ∧
    ((accumulateStats stats
        ⟨⟨[0, 1, 2, 3, 4, 5], 6⟩, emptyBand, emptyBand⟩).placeCredits a
      = stats.placeCredits a + 2 / 6) ∧
    ((accumulateStats stats
        ⟨⟨[0, 1, 2, 3, 4, 5], 6⟩, emptyBand, emptyBand⟩).showCredits a
      = stats.showCredits a + 3 / 6) := by
  have hc : List.count a [(0 : Fin 6), 1, 2, 3, 4, 5] = 1 := by
    fin_cases a <;> decide
  refine ⟨?_, ?_, ?_⟩
  · simp only [accumulateStats, accWin, bumpAll_apply, hc]
    norm_num
  · simp only [accumulateStats, accPlace]
    split_ifs
    all_goals try (exfalso; omega)
    all_goals simp only [bumpAll_apply, hc]
    norm_num
  · simp only [accumulateStats, accShow]
    split_ifs
    all_goals try (exfalso; omega)
    all_goals simp only [bumpAll_apply, hc]
    norm_num

/-- Claim C2: two calls to `calculateProbabilities` with identical scores,
samples and salt succeed and produce bit-identical win, place and show
basis-point arrays, whatever the clock (`Date.now`) readings are — the
clock feeds only `elapsedMs`. -/
theorem claim_C2_determinism (scores : List Int) (samples : Int) (salt : Nat)
    (now0 now1 now2 now3 : Int) (h6 : scores.length = 6) (h1 : 1 ≤ samples) :
    ∃ r r2 : AggregateResult,
      calculateProbabilities scores samples salt now0 now1 = .ok r ∧
      calculateProbabilities scores samples salt now2 now3 = .ok r2 ∧
      r.winProbBps = r2.winProbBps ∧ r.placeProbBps = r2.placeProbBps ∧
      r.showProbBps = r2.showProbBps := by
  unfold calculateProbabilities
  simp only [if_neg (by simp [h6, LANE_COUNT] : ¬ scores.length ≠ LANE_COUNT),
    if_neg (by omega : ¬ samples ≤ 0)]
  exact ⟨_, _, rfl, rfl, rfl, rfl, rfl⟩

/-- Witness for C2 at a concrete input: six scores, one sample, salt 0 and
two different pairs of clock readings. -/
theorem claim_C2_witness :
    ([3, 5, 7, 2, 9, 10] : List Int).length = 6 ∧ (1 : Int) ≤ 1 ∧
    (∃ r r2 : AggregateResult,
      calculateProbabilities [3, 5, 7, 2, 9, 10] 1 0 0 5 = .ok r ∧
      calculateProbabilities [3, 5, 7, 2, 9, 10] 1 0 7 9 = .ok r2 ∧
      r.winProbBps = r2.winProbBps ∧ r.placeProbBps = r2.placeProbBps ∧
      r.showProbBps = r2.showProbBps) :=
  ⟨by decide, by decide,
   claim_C2_determinism [3, 5, 7, 2, 9, 10] 1 0 0 5 7 9 (by decide) (by decide)⟩

/-- Claim C4: `calculateProbabilities` fails exactly when the scores array
does not have 6 elements or the sample count is not positive; out-of-range
individual scores are not an error — on success the scores actually used
are the clamped ones, each inside [1, 10]. -/
theorem claim_C4_validation (scores : List Int) (samples : Int) (salt : Nat)
    (now0 now1 : Int) :
    ((∃ e, calculateProbabilities scores samples salt now0 now1 = .error e) ↔
      (scores.length ≠ 6 ∨ samples ≤ 0)) ∧
    (∀ r, calculateProbabilities scores samples salt now0 now1 = .ok r →
      r.scores = scores.map clampScore ∧ ∀ x ∈ r.scores, 1 ≤ x ∧ x ≤ 10) := by
  unfold calculateProbabilities
  by_cases hL : scores.length ≠ LANE_COUNT
  · rw [if_pos hL]
    refine ⟨⟨fun _ => Or.inl (by simpa [LANE_COUNT] using hL), fun _ => ⟨_, rfl⟩⟩, ?_⟩
    intro r hr
    cases hr
  · rw [if_neg hL]
    by_cases hS : samples ≤ 0
    · rw [if_pos hS]
      refine ⟨⟨fun _ => Or.inr hS, fun _ => ⟨_, rfl⟩⟩, ?_⟩
      intro r hr
      cases hr
    · rw [if_neg hS]
      constructor
      · constructor
        · rintro ⟨e, he⟩
          cases he
        · intro h
          rcases h with h | h
          · exact absurd (by simpa [LANE_COUNT] using h) hL
          · exact absurd h hS
      · intro r hr
        cases hr
        refine ⟨rfl, ?_⟩
        intro x hx
        obtain ⟨y, _, hy⟩ := List.mem_map.mp hx
        rw [← hy]
        unfold clampScore
        split_ifs <;> omega

/-- Witness for C4 at concrete inputs: the empty scores array errors, and a
valid call with an out-of-range score succeeds with the score clamped. -/
theorem claim_C4_witness :
    (∃ e, calculateProbabilities ([] : List Int) 1 0 0 0 = .error e) ∧
    (∀ r, calculateProbabilities ([] : List Int) 1 0 0 0 = .ok r →
      r.scores = ([] : List Int).map clampScore ∧ ∀ x ∈ r.scores, 1 ≤ x ∧ x ≤ 10) :=
  ⟨(claim_C4_validation [] 1 0 0 0).1.mpr (Or.inl (by decide)),
   (claim_C4_validation [] 1 0 0 0).2⟩

/-! ### Bounds of the basis-point conversion -/

theorem fmtBps_list_bounds (f : Fin 6 → ℚ) (N : ℚ) (k : ℕ) (hN : 0 < N)
    (hlo : ∀ a, 0 ≤ f a) (hhi : ∀ a, f a ≤ N)
    (hsum : (∑ a : Fin 6, f a) = k * N) :
    (∀ x ∈ (List.finRange 6).map (fun a => fmtBps (f a / N)), 0 ≤ x ∧ x ≤ 10000) ∧
    ((((List.finRange 6).map (fun a => fmtBps (f a / N))).sum - 10000 * (k : ℤ)).natAbs ≤ 3) := by
  constructor
  · intro x hx
    obtain ⟨a, _, ha⟩ := List.mem_map.mp hx
    rw [← ha]
    have h0 : 0 ≤ f a / N := div_nonneg (hlo a) hN.le
    have h1 : f a / N ≤ 1 := (div_le_one hN).mpr (hhi a)
    unfold fmtBps jsRound
    constructor
    · rw [show (0 : ℤ) = ((0 : ℤ)) from rfl, Int.le_floor]
      push_cast
      nlinarith
    · have hle := Int.floor_le (f a / N * 10000 + 1 / 2)
      by_contra hcon
      push_neg at hcon
      have h10001 : (10001 : ℚ) ≤ (⌊f a / N * 10000 + 1 / 2⌋ : ℚ) := by
        exact_mod_cast (by omega : (10001 : ℤ) ≤ ⌊f a / N * 10000 + 1 / 2⌋)
      nlinarith
  · rw [← Fin.sum_univ_def]
    have low : ∀ a : Fin 6, (f a / N * 10000 + 1 / 2) - 1 < ((fmtBps (f a / N) : ℤ) : ℚ) :=
      fun a => Int.sub_one_lt_floor _
    have high : ∀ a : Fin 6, ((fmtBps (f a / N) : ℤ) : ℚ) ≤ f a / N * 10000 + 1 / 2 :=
      fun a => Int.floor_le _
    have hS : (∑ a : Fin 6, (f a / N * 10000 + 1 / 2)) = 10000 * k + 3 := by
      rw [Finset.sum_add_distrib, ← Finset.sum_mul, ← Finset.sum_div, hsum]
      have hN0 : N ≠ 0 := ne_of_gt hN
      field_simp
      ring
    have hcast : ((∑ a : Fin 6, fmtBps (f a / N) : ℤ) : ℚ)
        = ∑ a : Fin 6, ((fmtBps (f a / N) : ℤ) : ℚ) := by
      push_cast
      rfl
    have hup : ((∑ a : Fin 6, fmtBps (f a / N) : ℤ) : ℚ) ≤ 10000 * k + 3 := by
      rw [hcast, ← hS]
      exact Finset.sum_le_sum (fun a _ => high a)
    have hdn : (10000 * (k : ℚ) + 3) - 6 < ((∑ a : Fin 6, fmtBps (f a / N) : ℤ) : ℚ) := by
      rw [hcast]
      have hlt : (∑ a : Fin 6, ((f a / N * 10000 + 1 / 2) - 1))
          < ∑ a : Fin 6, ((fmtBps (f a / N) : ℤ) : ℚ) :=
        Finset.sum_lt_sum_of_nonempty Finset.univ_nonempty (fun a _ => low a)
      have heq : (∑ a : Fin 6, ((f a / N * 10000 + 1 / 2) - 1))
          = (10000 * (k : ℚ) + 3) - 6 := by
        rw [Finset.sum_sub_distrib, hS]
        norm_num
      linarith
    have hupZ : (∑ a : Fin 6, fmtBps (f a / N)) ≤ 10000 * (k : ℤ) + 3 := by
      exact_mod_cast hup
    have hdnZ : 10000 * (k : ℤ) - 3 < ∑ a : Fin 6, fmtBps (f a / N) := by
      exact_mod_cast (by linarith : (10000 * (k : ℚ) - 3)
        < ((∑ a : Fin 6, fmtBps (f a / N) : ℤ) : ℚ))
    omega

set_option maxHeartbeats 800000 in
/-- Claim C5: every valid call (6 scores, samples ≥ 1) succeeds with three
basis-point arrays of length 6, every entry an integer in [0, 10000], and,
in exact rational arithmetic, the three array sums within 3 basis points of
10000, 20000 and 30000 respectively. -/
theorem claim_C5_bps_arrays (scores : List Int) (samples : Int) (salt : Nat)
    (now0 now1 : Int) (h6 : scores.length = 6) (h1 : 1 ≤ samples) :
    ∃ r : AggregateResult,
      calculateProbabilities scores samples salt now0 now1 = .ok r ∧
      r.winProbBps.length = 6 ∧ r.placeProbBps.length = 6 ∧ r.showProbBps.length = 6 ∧
      (∀ x ∈ r.winProbBps, 0 ≤ x ∧ x ≤ 10000) ∧
      (∀ x ∈ r.placeProbBps, 0 ≤ x ∧ x ≤ 10000) ∧
      (∀ x ∈ r.showProbBps, 0 ≤ x ∧ x ≤ 10000) ∧
      (r.winProbBps.sum - 10000).natAbs ≤ 3 ∧
      (r.placeProbBps.sum - 20000).natAbs ≤ 3 ∧
      (r.showProbBps.sum - 30000).natAbs ≤ 3 := by
  have hN : (0 : ℚ) < (samples : ℚ) := by exact_mod_cast (by omega : (0 : ℤ) < samples)
  have htN : ((samples.toNat : ℕ) : ℚ) = (samples : ℚ) := by
    exact_mod_cast congrArg (fun z : ℤ => (z : ℚ)) (Int.toNat_of_nonneg (by omega))
  unfold calculateProbabilities
  simp only [if_neg (by simp [h6, LANE_COUNT] : ¬ scores.length ≠ LANE_COUNT),
    if_neg (by omega : ¬ samples ≤ 0)]
  set clamped := scores.map clampScore with hclamped
  set x0 := (if (salt * 0x9e3779b9) % U32 = 0 then 0x12345678
    else (salt * 0x9e3779b9) % U32) with hx0
  set x1 := mixScores clamped x0 with hx1
  set scoresFn : Fin 6 → Int := fun a => clamped.getD a 1 with hsf
  set stats0 : LaneStatsMap := ⟨fun _ => 0, fun _ => 0, fun _ => 0⟩ with hstats0
  set stats := runSims scoresFn samples.toNat x1 stats0 with hstats
  obtain ⟨hwS, hpS, hsS⟩ := runSims_sums scoresFn samples.toNat x1 stats0
  have hzero : ∀ a : Fin 6, stats0.winCredits a = 0 ∧ stats0.placeCredits a = 0 ∧
      stats0.showCredits a = 0 := fun a => ⟨rfl, rfl, rfl⟩
  have hLB := runSims_lane_bounds scoresFn samples.toNat x1 stats0
  have hbW := fmtBps_list_bounds stats.winCredits (samples : ℚ) 1 hN
    (fun a => by
      have := ((hLB a).1).1
      simpa [hstats0] using this)
    (fun a => by
      have := ((hLB a).1).2
      rw [htN] at this
      simpa [hstats0] using this)
    (by
      rw [← hstats] at hwS
      rw [hwS]
      simp [hstats0, htN])
  have hbP := fmtBps_list_bounds stats.placeCredits (samples : ℚ) 2 hN
    (fun a => by
      have := ((hLB a).2.1).1
      simpa [hstats0] using this)
    (fun a => by
      have h2 := ((hLB a).2.1).2
      rw [htN] at h2
      have hx : (0 : ℚ) ≤ (samples : ℚ) := hN.le
      simp only [hstats0] at h2
      simpa [hstats0] using le_trans h2 (by linarith))
    (by
      rw [← hstats] at hpS
      rw [hpS]
      simp [hstats0, htN])
  have hbS := fmtBps_list_bounds stats.showCredits (samples : ℚ) 3 hN
    (fun a => by
      have := ((hLB a).2.2).1
      simpa [hstats0] using this)
    (fun a => by
      have h2 := ((hLB a).2.2).2
      rw [htN] at h2
      simp only [hstats0] at h2
      simpa [hstats0] using le_trans h2 (by linarith))
    (by
      rw [← hstats] at hsS
      rw [hsS]
      simp [hstats0, htN])
  refine ⟨_, rfl, by simp, by simp, by simp, hbW.1, hbP.1, hbS.1, ?_, ?_, ?_⟩
  · have h := hbW.2
    norm_num at h
    exact h
  · have h := hbP.2
    norm_num at h
    exact h
  · have h := hbS.2
    norm_num at h
    exact h

/-- Witness for C5 at a concrete input: six scores and one sample. -/
theorem claim_C5_witness :
    ([3, 5, 7, 2, 9, 10] : List Int).length = 6 ∧ (1 : Int) ≤ 1 ∧
    (∃ r : AggregateResult,
      calculateProbabilities [3, 5, 7, 2, 9, 10] 1 0 0 0 = .ok r ∧
      r.winProbBps.length = 6 ∧ r.placeProbBps.length = 6 ∧ r.showProbBps.length = 6 ∧
      (∀ x ∈ r.winProbBps, 0 ≤ x ∧ x ≤ 10000) ∧
      (∀ x ∈ r.placeProbBps, 0 ≤ x ∧ x ≤ 10000) ∧
      (∀ x ∈ r.showProbBps, 0 ≤ x ∧ x ≤ 10000) ∧
      (r.winProbBps.sum - 10000).natAbs ≤ 3 ∧
      (r.placeProbBps.sum - 20000).natAbs ≤ 3 ∧
      (r.showProbBps.sum - 30000).natAbs ≤ 3) :=
  ⟨by decide, by decide,
   claim_C5_bps_arrays [3, 5, 7, 2, 9, 10] 1 0 0 0 (by decide) (by decide)⟩

end GiraffeRace
